import Mathlib

/-!
Shallow embedding of the news aggregation pipeline of `src/bloomberg.py`
(tagger, RSS parser, sort/dedup block, after-hours time filter), together
with theorems checking the specification's claims about it.

Python semantics notes, applying throughout:
* strings are modelled by `String`/`List Char`; character classes
  (`str.lower`, `\d`, `\s`, `str.strip`) are modelled at ASCII granularity,
  which is exact for every keyword list, format string and example in the
  repository;
* `x or y` on strings is first-truthy: the empty string is falsy;
* fallible library calls are modelled as `Option`-returning functions, a
  `none` standing for the `ValueError`/parse failure the Python code
  catches.
-/

namespace Bloomberg

/-- Python `str.lower()` (ASCII model). -/
def pyLower (s : String) : String := ⟨s.data.map Char.toLower⟩

/-- Does `hay` start with `n`? (helper for substring membership). -/
def charsStart (n hay : List Char) : Bool :=
  match n, hay with
  | [], _ => true
  | _ :: _, [] => false
  | a :: as, b :: bs => a == b && charsStart as bs

/-- Does `hay` contain `n` as a contiguous run? -/
def charsContain (n hay : List Char) : Bool :=
  match hay with
  | [] => charsStart n []
  | _ :: bs => charsStart n hay || charsContain n bs

/-- Python substring membership `needle in haystack`. -/
def pyContains (needle haystack : String) : Bool :=
  charsContain needle.data haystack.data

/-- Python `a or b` on strings: `a` if `a` is truthy (non-empty), else `b`. -/
def pyOrS (a : Option String) (b : String) : String :=
  match a with
  | none => b
  | some s => if s = "" then b else s

/-- `GEO_KEYWORDS` list from the source. -/
def GEO_KEYWORDS : List String :=
  ["sanction", "war", "conflict", "geopolit", "tariff", "trade war", "election",
   "sanctions", "military", "rally", "protest", "embargo", "blockade",
   "cyber attack", "terror"]

/-- `MACRO_KEYWORDS` list from the source. -/
def MACRO_KEYWORDS : List String :=
  ["inflation", "cpi", "gdp", "unemployment", "rate cut", "rate hike",
   "interest rate", "rbi", "fed"]

/-- `ACTION_KEYWORDS` list from the source. -/
def ACTION_KEYWORDS : List String :=
  ["dividend", "buyback", "board", "merger", "acquisition", "ipo",
   "rights issue", "debt"]

/-- `any(k in txt for k in ks)` where `txt` is the lowercased input. -/
def keywordHit (ks : List String) (text : String) : Bool :=
  ks.any (fun k => pyContains k (pyLower text))

/-- `tag_article` from the source: lowercase the text, append a category for
each keyword list with a substring hit, and fall back to `["General"]`
(`tags or ["General"]`). -/
def tag_article (text : String) : List String :=
  let tags :=
    (if keywordHit GEO_KEYWORDS text then ["Geopolitical"] else []) ++
    (if keywordHit MACRO_KEYWORDS text then ["Macro"] else []) ++
    (if keywordHit ACTION_KEYWORDS text then ["Corporate Action"] else [])
  if tags = [] then ["General"] else tags

/-- Python `str.strip()` with no argument: drop whitespace from both ends
(ASCII whitespace model). -/
def pyStripList (l : List Char) : List Char :=
  ((l.dropWhile Char.isWhitespace).reverse.dropWhile Char.isWhitespace).reverse

/-- `str.strip()` on `String`. -/
def pyStrip (s : String) : String := ⟨pyStripList s.data⟩

/-- One pass of `re.sub(r'<[^>]+>', '', s)` on a character list: at each
`<`, if a later `>` exists with at least one character in between, the whole
`<...>` run is dropped and scanning resumes after the `>`; otherwise the
character is kept.  This mirrors the regex engine's leftmost,
non-overlapping matching of `<[^>]+>`. -/
def stripTagsAux (l : List Char) : List Char :=
  match l with
  | [] => []
  | c :: cs =>
    if c = '<' then
      let pre := cs.takeWhile (fun d => d ≠ '>')
      if pre ≠ [] ∧ pre.length < cs.length then
        stripTagsAux (cs.drop (pre.length + 1))
      else c :: stripTagsAux cs
    else c :: stripTagsAux cs
termination_by l.length
decreasing_by all_goals simp [List.length_drop] <;> omega

/-- `re.sub(r'<[^>]+>', '', s)` on `String`. -/
def stripTags (s : String) : String := ⟨stripTagsAux s.data⟩

/-- Is there a (leftover) match of `<[^>]+>` anywhere in `l`?  Used to state
that the tag-removal pass leaves no tag behind. -/
def containsTag (l : List Char) : Bool :=
  match l with
  | [] => false
  | c :: cs =>
    if c = '<' then
      (decide ((cs.takeWhile (fun d => d ≠ '>')) ≠ [] ∧
        (cs.takeWhile (fun d => d ≠ '>')).length < cs.length)) || containsTag cs
    else containsTag cs

/-- Partial model of Python `html.unescape`: exact on strings without `&`
(the function's fast path, `if '&' not in s: return s`) and on the common
named references; the full HTML5 entity table is not modelled.  The
theorems below only ever reach the `&`-free path. -/
def unescapeAux : List Char → List Char
  | [] => []
  | '&' :: 'a' :: 'm' :: 'p' :: ';' :: r => '&' :: unescapeAux r
  | '&' :: 'l' :: 't' :: ';' :: r => '<' :: unescapeAux r
  | '&' :: 'g' :: 't' :: ';' :: r => '>' :: unescapeAux r
  | '&' :: 'q' :: 'u' :: 'o' :: 't' :: ';' :: r => '"' :: unescapeAux r
  | '&' :: '#' :: '3' :: '9' :: ';' :: r => Char.ofNat 39 :: unescapeAux r
  | c :: r => c :: unescapeAux r

/-- `html.unescape`. -/
def html_unescape (s : String) : String :=
  if s.data.contains '&' then ⟨unescapeAux s.data⟩ else s

/-- An XML element as `xml.etree.ElementTree` presents it: tag, optional
text content, and child elements. -/
inductive XElem : Type where
  | mk : String → Option String → List XElem → XElem

/-- The element's tag. -/
def XElem.tag : XElem → String
  | .mk t _ _ => t

/-- The element's text content (`None` when absent). -/
def XElem.text : XElem → Option String
  | .mk _ x _ => x

/-- The element's direct children. -/
def XElem.children : XElem → List XElem
  | .mk _ _ cs => cs

mutual
/-- All proper descendants of `e`, in document (preorder) order;
`root.findall(".//item")` filters this list by tag. -/
def XElem.descendants : XElem → List XElem
  | .mk _ _ cs => XElem.descList cs
/-- Descendant collection over a child list. -/
def XElem.descList : List XElem → List XElem
  | [] => []
  | c :: cs => (c :: XElem.descendants c) ++ XElem.descList cs
end

/-- `root.findall(".//item")`: every descendant element tagged `item`. -/
def findallItems (root : XElem) : List XElem :=
  root.descendants.filter (fun e => e.tag == "item")

/-- `elem.findtext(path)` for a single-name path: the first direct child
with the given tag, yielding `elem.text or ""` when found and `None`
otherwise. -/
def findtext (e : XElem) (path : String) : Option String :=
  (e.children.find? (fun c => c.tag == path)).map (fun c => c.text.getD "")

/-- A normalized article record (the dicts built in `parse_rss` and merged
in the aggregation block).  `published` is an `Option` because the BSE
announcement records can carry Python `None` there; `parse_rss` always
fills it with a string.  `source` is attached by the caller, not the
parser, so `parse_rss` leaves it empty. -/
structure Article where
  title : String
  link : String
  published : Option String
  summary : String
  source : String
deriving Repr, DecidableEq

/-- The record built for one `<item>` element inside `parse_rss`:
`or`-chained field lookups with empty-string defaults, `strip` on every
field, `html.unescape` on the title and the tag-removal pass on the
description. -/
def mkItem (e : XElem) : Article :=
  let title := pyOrS (findtext e "title") ""
  let link := pyOrS (findtext e "link") ""
  let pub := pyOrS (findtext e "pubDate") (pyOrS (findtext e "published") "")
  let desc := pyOrS (findtext e "description") (pyOrS (findtext e "summary") "")
  { title := html_unescape (pyStrip title)
    link := pyStrip link
    published := some (pyStrip pub)
    summary := pyStrip (stripTags desc)
    source := "" }

/-- Outcome of `ET.fromstring` on the response bytes. -/
inductive BodyResult where
  | malformed : BodyResult
  | xml : XElem → BodyResult

/-- Outcome of `requests.get`: an exception (timeout, connection failure,
etc.) or a response carrying a status code and a body. -/
inductive FetchResult where
  | exn : FetchResult
  | resp : Int → BodyResult → FetchResult

/-- The per-item loop of `parse_rss` on an already-parsed document:
`root.findall(".//item")[:max_items]`, one record per node. -/
def parseItems (root : XElem) (maxItems : Nat) : List Article :=
  ((findallItems root).take maxItems).map mkItem

/-- `parse_rss`: `[]` on any fetch exception, non-200 status or XML parse
error (the `try/except` and the status check); otherwise one record per
`<item>` node, capped at `max_items`. -/
def parse_rss (res : FetchResult) (maxItems : Nat) : List Article :=
  match res with
  | .exn => []
  | .resp status body =>
    if status ≠ 200 then []
    else
      match body with
      | .malformed => []
      | .xml root => parseItems root maxItems

/-- `pub_key`: `x.get("published") or ""` — the raw published string,
empty when the field is missing (`None`) or empty. -/
def pub_key (x : Article) : String := pyOrS x.published ""

/-- `sorted(NEWS, key=pub_key, reverse=True)`: Python's stable descending
sort, modelled by the stable `mergeSort` that lets `a` stay before `b`
exactly when `pub_key b ≤ pub_key a`. -/
def sortNews (l : List Article) : List Article :=
  l.mergeSort (fun a b => decide (pub_key b ≤ pub_key a))

/-- The duplicate-title removal loop: a `seen` set of titles, keeping the
first occurrence encountered. -/
def newsUniqAux (seen : List String) : List Article → List Article
  | [] => []
  | x :: xs =>
    if x.title ∈ seen then newsUniqAux seen xs
    else x :: newsUniqAux (x.title :: seen) xs

/-- The Deduplicator/Sorter stage of the aggregation block: sort by the
raw published string descending, then drop already-seen titles. -/
def news_uniq (l : List Article) : List Article := newsUniqAux [] (sortNews l)

/-! ### Calendar arithmetic (CPython `datetime`'s proleptic Gregorian) -/

/-- Gregorian leap year. -/
def isLeap (y : Nat) : Bool := y % 4 == 0 && (y % 100 != 0 || y % 400 == 0)

/-- Length of a month. -/
def daysInMonth (y m : Nat) : Nat :=
  if m = 2 then (if isLeap y then 29 else 28)
  else if m = 4 ∨ m = 6 ∨ m = 9 ∨ m = 11 then 30 else 31

/-- Days in year `y` before month `m`. -/
def daysBeforeMonth (y m : Nat) : Nat :=
  ((List.range (m - 1)).map (fun i => daysInMonth y (i + 1))).sum

/-- Days before January 1 of year `y` (CPython `_days_before_year`). -/
def daysBeforeYear (y : Nat) : Nat :=
  (y - 1) * 365 + (y - 1) / 4 - (y - 1) / 100 + (y - 1) / 400

/-- `datetime.toordinal()`: day number of `y-m-d`, with 0001-01-01 = 1. -/
def toOrdinal (y m d : Nat) : Nat := daysBeforeYear y + daysBeforeMonth y m + d

/-- A parsed `datetime`: calendar fields plus, for an aware value, the
UTC offset in microseconds delivered by `%z`; `none` marks a naive value
(`%Z` leaves the result naive). -/
structure PyDateTime where
  year : Nat
  month : Nat
  day : Nat
  hour : Nat
  minute : Nat
  second : Nat
  tzOffUs : Option Int
deriving Repr, DecidableEq

/-! ### `strptime` for the four formats tried by `is_after_hours` -/

/-- Numeric value of an ASCII digit. -/
def dv (c : Char) : Nat := c.toNat - 48

/-- A `strptime` numeric field: a two-digit value within `[lo2, hi2]`,
else a single digit at least `lo1`.  The regex alternations
(`(3[01]|[12]\d|0[1-9]|[1-9])` for `%d` and the analogues for `%m`, `%H`,
`%M`, `%S`) behave exactly so in the four formats used here, where a
digit never follows the field. -/
def pNum (lo2 hi2 lo1 : Nat) (l : List Char) : Option (Nat × List Char) :=
  match l with
  | a :: b :: r =>
    if a.isDigit && b.isDigit && decide (lo2 ≤ dv a * 10 + dv b) &&
        decide (dv a * 10 + dv b ≤ hi2) then
      some (dv a * 10 + dv b, r)
    else if a.isDigit && decide (lo1 ≤ dv a) then some (dv a, b :: r)
    else none
  | [a] => if a.isDigit && decide (lo1 ≤ dv a) then some (dv a, []) else none
  | [] => none

/-- `%Y`: exactly four digits. -/
def pYear4 (l : List Char) : Option (Nat × List Char) :=
  match l with
  | a :: b :: c :: d :: r =>
    if a.isDigit && b.isDigit && c.isDigit && d.isDigit then
      some (((dv a * 10 + dv b) * 10 + dv c) * 10 + dv d, r)
    else none
  | _ => none

/-- Exactly two digits (the `\d\d` groups inside `%z`). -/
def pFix2 (l : List Char) : Option (Nat × List Char) :=
  match l with
  | a :: b :: r => if a.isDigit && b.isDigit then some (dv a * 10 + dv b, r) else none
  | _ => none

/-- A literal character of the format string, matched case-insensitively
(`strptime` compiles its regex with `IGNORECASE`). -/
def pLit (ch : Char) (l : List Char) : Option (List Char) :=
  match l with
  | c :: r => if c.toLower == ch.toLower then some r else none
  | [] => none

/-- `\s+` (whitespace in the format): at least one whitespace character,
greedily consumed. -/
def pWs (l : List Char) : Option (List Char) :=
  match l with
  | c :: r => if c.isWhitespace then some (r.dropWhile Char.isWhitespace) else none
  | [] => none

/-- `%a`: an abbreviated weekday name, case-insensitive; parsed but never
checked against the date. -/
def pWeekday (l : List Char) : Option (List Char) :=
  match l with
  | a :: b :: c :: r =>
    if [['m','o','n'], ['t','u','e'], ['w','e','d'], ['t','h','u'],
        ['f','r','i'], ['s','a','t'], ['s','u','n']].contains
        [a.toLower, b.toLower, c.toLower] then some r
    else none
  | _ => none

/-- `%b`: an abbreviated month name, case-insensitive. -/
def pMonth (l : List Char) : Option (Nat × List Char) :=
  match l with
  | a :: b :: c :: r =>
    match [['j','a','n'], ['f','e','b'], ['m','a','r'], ['a','p','r'],
        ['m','a','y'], ['j','u','n'], ['j','u','l'], ['a','u','g'],
        ['s','e','p'], ['o','c','t'], ['n','o','v'], ['d','e','c']].findIdx?
        (fun n => n == [a.toLower, b.toLower, c.toLower]) with
    | some i => some (i + 1, r)
    | none => none
  | _ => none

/-- `%Z`: a timezone name.  `strptime` accepts `UTC`/`GMT`
case-insensitively (plus the host machine's local zone names, not
modelled) and leaves the parsed value naive. -/
def pTZName (l : List Char) : Option (List Char) :=
  match l with
  | a :: b :: c :: r =>
    if [['u','t','c'], ['g','m','t']].contains [a.toLower, b.toLower, c.toLower] then
      some r
    else none
  | _ => none

/-- The fraction after `.` inside `%z`: one to six digits, scaled to
microseconds. -/
def pFrac (l : List Char) : Option (Nat × List Char) :=
  let ds := l.takeWhile Char.isDigit
  if 1 ≤ ds.length ∧ ds.length ≤ 6 then
    some ((ds.foldl (fun acc c => acc * 10 + dv c) 0) * 10 ^ (6 - ds.length),
      l.drop ds.length)
  else none

/-- `%z`: `Z` (offset 0, case-sensitive) or
`[+-]\d\d:?\d\d(:\d\d(\.\d{1,6})?)?`, yielding the UTC offset in
microseconds. -/
def pZOffset (l : List Char) : Option (Int × List Char) :=
  match l with
  | 'Z' :: r => some (0, r)
  | s :: r =>
    if s = '+' ∨ s = '-' then
      match pFix2 r with
      | none => none
      | some (hh, r1) =>
        match pFix2 (match r1 with | ':' :: rc => rc | _ => r1) with
        | none => none
        | some (mm, r2) =>
          let step :=
            match r2 with
            | ':' :: r3 =>
              match pFix2 r3 with
              | some (s2, r4) =>
                match r4 with
                | '.' :: r5 =>
                  match pFrac r5 with
                  | some (f, r6) => (s2, f, r6)
                  | none => (s2, 0, r4)
                | _ => (s2, 0, r4)
              | none => (0, 0, r2)
            | _ => (0, 0, r2)
          let mag : Int := (((hh * 3600 + mm * 60 + step.1) * 1000000 + step.2.1 : Nat) : Int)
          some (if s = '-' then -mag else mag, step.2.2)
    else none
  | [] => none

/-- Is the UTC offset acceptable to the `timezone` constructor
(strictly less than one day in magnitude)? -/
def tzOk : Option Int → Bool
  | none => true
  | some off => decide (off.natAbs < 86400000000)

/-- The `datetime` construction performed by `strptime` after the regex
match: rejects year 0, a day beyond the month's length, a leap second
(`%S` admits 60/61, the constructor does not) and an out-of-range
`timezone` offset. -/
def mkValid (y mo d hh mi ss : Nat) (tz : Option Int) : Option PyDateTime :=
  if 1 ≤ y ∧ d ≤ daysInMonth y mo ∧ ss ≤ 59 ∧ tzOk tz = true then
    some ⟨y, mo, d, hh, mi, ss, tz⟩
  else none

/-- `strptime` with `"%a, %d %b %Y %H:%M:%S %Z"`. -/
def strptime_fmt1 (s : String) : Option PyDateTime := do
  let r ← pWeekday s.data
  let r ← pLit ',' r
  let r ← pWs r
  let (d, r) ← pNum 1 31 1 r
  let r ← pWs r
  let (mo, r) ← pMonth r
  let r ← pWs r
  let (y, r) ← pYear4 r
  let r ← pWs r
  let (hh, r) ← pNum 0 23 0 r
  let r ← pLit ':' r
  let (mi, r) ← pNum 0 59 0 r
  let r ← pLit ':' r
  let (ss, r) ← pNum 0 61 0 r
  let r ← pWs r
  let r ← pTZName r
  if r = [] then mkValid y mo d hh mi ss none else none

/-- `strptime` with `"%a, %d %b %Y %H:%M:%S %z"`. -/
def strptime_fmt2 (s : String) : Option PyDateTime := do
  let r ← pWeekday s.data
  let r ← pLit ',' r
  let r ← pWs r
  let (d, r) ← pNum 1 31 1 r
  let r ← pWs r
  let (mo, r) ← pMonth r
  let r ← pWs r
  let (y, r) ← pYear4 r
  let r ← pWs r
  let (hh, r) ← pNum 0 23 0 r
  let r ← pLit ':' r
  let (mi, r) ← pNum 0 59 0 r
  let r ← pLit ':' r
  let (ss, r) ← pNum 0 61 0 r
  let r ← pWs r
  let (off, r) ← pZOffset r
  if r = [] then mkValid y mo d hh mi ss (some off) else none

/-- `strptime` with `"%Y-%m-%dT%H:%M:%SZ"` (the `T` and `Z` are literals,
matched case-insensitively). -/
def strptime_fmt3 (s : String) : Option PyDateTime := do
  let (y, r) ← pYear4 s.data
  let r ← pLit '-' r
  let (mo, r) ← pNum 1 12 1 r
  let r ← pLit '-' r
  let (d, r) ← pNum 1 31 1 r
  let r ← pLit 'T' r
  let (hh, r) ← pNum 0 23 0 r
  let r ← pLit ':' r
  let (mi, r) ← pNum 0 59 0 r
  let r ← pLit ':' r
  let (ss, r) ← pNum 0 61 0 r
  let r ← pLit 'Z' r
  if r = [] then mkValid y mo d hh mi ss none else none

/-- `strptime` with `"%Y-%m-%d %H:%M:%S"`. -/
def strptime_fmt4 (s : String) : Option PyDateTime := do
  let (y, r) ← pYear4 s.data
  let r ← pLit '-' r
  let (mo, r) ← pNum 1 12 1 r
  let r ← pLit '-' r
  let (d, r) ← pNum 1 31 1 r
  let r ← pWs r
  let (hh, r) ← pNum 0 23 0 r
  let r ← pLit ':' r
  let (mi, r) ← pNum 0 59 0 r
  let r ← pLit ':' r
  let (ss, r) ← pNum 0 61 0 r
  if r = [] then mkValid y mo d hh mi ss none else none

/-- The format loop of `is_after_hours`: the four formats are tried in
order, first success wins. -/
def strptimeAll (s : String) : Option PyDateTime :=
  match strptime_fmt1 s with
  | some dt => some dt
  | none =>
    match strptime_fmt2 s with
    | some dt => some dt
    | none =>
      match strptime_fmt3 s with
      | some dt => some dt
      | none => strptime_fmt4 s

/-- One attempt of `\d{2}:\d{2}:\d{2}` at the current position. -/
def tryHMS (l : List Char) : Option (Nat × Nat × Nat) :=
  match l with
  | a :: b :: c :: d :: e :: f :: g :: h :: _ =>
    if a.isDigit && b.isDigit && c == ':' && d.isDigit && e.isDigit && f == ':' &&
        g.isDigit && h.isDigit then
      some (dv a * 10 + dv b, dv d * 10 + dv e, dv g * 10 + dv h)
    else none
  | _ => none

/-- `re.search(r"(\d{2}:\d{2}:\d{2})", s)`: the leftmost match only. -/
def findHMS : List Char → Option (Nat × Nat × Nat)
  | [] => none
  | c :: t =>
    match tryHMS (c :: t) with
    | some v => some v
    | none => findHMS t

/-! ### The after-hours classification itself -/

/-- `IST_OFFSET = timedelta(hours=5, minutes=30)`, in seconds. -/
def IST_OFFSET_SECS : Nat := 19800

/-- The tuple comparison `(hour, minute) >= MARKET_CLOSE_IST` with
`MARKET_CLOSE_IST = (15, 30)`. -/
def afterClose (h m : Nat) : Bool := decide (15 < h ∨ (h = 15 ∧ 30 ≤ m))

/-- Hour of a timestamp counted in seconds. -/
def clockHour (t : Nat) : Nat := t / 3600 % 24

/-- Minute of a timestamp counted in seconds. -/
def clockMin (t : Nat) : Nat := t % 3600 / 60

/-- `datetime.max` as a microsecond timestamp (ordinal `9999-12-31`,
`23:59:59.999999`); `astimezone` raises `OverflowError` beyond it. -/
def maxTsUs : Nat := (toOrdinal 9999 12 31 * 86400 + 86399) * 1000000 + 999999

/-- `is_after_hours`, with the date `now_ist().date()` would return
passed in as its ordinal `todayOrd` (consulted only by the bare
`HH:MM:SS` fallback).  A naive parse is assumed UTC and shifted by +5:30;
an aware parse is converted to UTC first, returning `False` when the
conversion leaves `datetime`'s year range (Python's `OverflowError`, was
caught by the outer `try`); the first `HH:MM:SS` run recovered by the
fallback is combined with today's date (an invalid run raises through to
the outer `try`, i.e. `False`); any remaining failure is `False`. -/
def is_after_hours (todayOrd : Nat) (s : String) : Bool :=
  match strptimeAll s with
  | some dt =>
    match dt.tzOffUs with
    | none =>
      let t := (toOrdinal dt.year dt.month dt.day) * 86400 +
        dt.hour * 3600 + dt.minute * 60 + dt.second + IST_OFFSET_SECS
      afterClose (clockHour t) (clockMin t)
    | some off =>
      let tUs : Int :=
        ((((toOrdinal dt.year dt.month dt.day) * 86400 +
          dt.hour * 3600 + dt.minute * 60 + dt.second) * 1000000 : Nat) : Int)
      let uUs : Int := tUs - off
      if 86400000000 ≤ uUs ∧ uUs ≤ (maxTsUs : Int) then
        let v := uUs.toNat + IST_OFFSET_SECS * 1000000
        afterClose (v / 3600000000 % 24) (v % 3600000000 / 60000000)
      else false
  | none =>
    match findHMS s.data with
    | none => false
    | some (hh, mi, ss) =>
      if hh ≤ 23 ∧ mi ≤ 59 ∧ ss ≤ 59 then
        let t := todayOrd * 86400 + hh * 3600 + mi * 60 + ss + IST_OFFSET_SECS
        afterClose (clockHour t) (clockMin t)
      else false

/-- C1: for every text input `tag_article` returns a non-empty tag list; it
returns exactly `["General"]` iff none of the three keyword lists has a
case-insensitive substring hit; and its members are exactly the matching
categories (with `"General"` exactly in the no-hit case). -/
theorem tag_article_spec (s : String) :
    tag_article s ≠ [] ∧
    (tag_article s = ["General"] ↔
      (keywordHit GEO_KEYWORDS s = false ∧ keywordHit MACRO_KEYWORDS s = false ∧
        keywordHit ACTION_KEYWORDS s = false)) ∧
    (∀ t : String, t ∈ tag_article s ↔
      ((t = "Geopolitical" ∧ keywordHit GEO_KEYWORDS s = true) ∨
       (t = "Macro" ∧ keywordHit MACRO_KEYWORDS s = true) ∨
       (t = "Corporate Action" ∧ keywordHit ACTION_KEYWORDS s = true) ∨
       (t = "General" ∧ keywordHit GEO_KEYWORDS s = false ∧
         keywordHit MACRO_KEYWORDS s = false ∧ keywordHit ACTION_KEYWORDS s = false))) := by
  rcases hg : keywordHit GEO_KEYWORDS s <;>
    rcases hm : keywordHit MACRO_KEYWORDS s <;>
    rcases ha : keywordHit ACTION_KEYWORDS s <;>
      simp [tag_article, hg, hm, ha]

/-- C4: on a parsed document with `N` item nodes and cap `maxItems`, the
parser returns exactly `min N maxItems` records; every record's
`published` field is a present (non-null) string; and each of the four
extracted fields defaults to the empty string when its element (and the
alternate name, where one is checked) is missing. -/
theorem parse_rss_count_and_defaults (root : XElem) (maxItems : Nat) :
    (parseItems root maxItems).length = min (findallItems root).length maxItems ∧
    (∀ r ∈ parseItems root maxItems, (r.published).isSome = true) ∧
    (∀ e ∈ (findallItems root).take maxItems,
      (findtext e "title" = none → (mkItem e).title = "") ∧
      (findtext e "link" = none → (mkItem e).link = "") ∧
      (findtext e "pubDate" = none → findtext e "published" = none →
        (mkItem e).published = some "") ∧
      (findtext e "description" = none → findtext e "summary" = none →
        (mkItem e).summary = "")) := by
  refine ⟨?_, ?_, ?_⟩
  · simp [parseItems, Nat.min_comm]
  · intro r hr
    simp only [parseItems, List.mem_map] at hr
    obtain ⟨e, -, rfl⟩ := hr
    rfl
  · intro e _he
    refine ⟨?_, ?_, ?_, ?_⟩
    · intro h1; simp [mkItem, h1, pyOrS, pyStrip, pyStripList, html_unescape]
    · intro h1; simp [mkItem, h1, pyOrS, pyStrip, pyStripList]
    · intro h1 h2; simp [mkItem, h1, h2, pyOrS, pyStrip, pyStripList]
    · intro h1 h2
      simp [mkItem, h1, h2, pyOrS, pyStrip, pyStripList, stripTags, stripTagsAux]

/-- Witness for C4 at a concrete document: a feed with one item that has
none of the four fields. -/
theorem parse_rss_count_and_defaults_witness :
    (parseItems (.mk "rss" none [.mk "channel" none [.mk "item" none []]]) 10).length =
      min (findallItems (.mk "rss" none [.mk "channel" none [.mk "item" none []]])).length 10 ∧
    (mkItem (.mk "item" none [])).title = "" ∧
    (mkItem (.mk "item" none [])).published = some "" ∧
    (mkItem (.mk "item" none [])).summary = "" := by
  have h := parse_rss_count_and_defaults
    (.mk "rss" none [.mk "channel" none [.mk "item" none []]]) 10
  have he : (.mk "item" none [] : XElem) ∈
      (findallItems (.mk "rss" none [.mk "channel" none [.mk "item" none []]])).take 10 :=
    List.mem_cons_self _ _
  exact ⟨h.1, (h.2.2 _ he).1 rfl, (h.2.2 _ he).2.2.1 rfl rfl, (h.2.2 _ he).2.2.2 rfl rfl⟩

/-- C5: every transport or parse failure — a raised exception, a non-200
status, or malformed response bytes — makes `parse_rss` return the empty
list (no exception escapes; the `try/except` swallows them all). -/
theorem parse_rss_errors_empty (res : FetchResult) (maxItems : Nat)
    (h : res = .exn ∨ (∃ st body, res = .resp st body ∧ st ≠ 200) ∨
      (∃ st, res = .resp st .malformed)) :
    parse_rss res maxItems = [] := by
  rcases h with rfl | ⟨st, body, rfl, hst⟩ | ⟨st, rfl⟩
  · rfl
  · simp [parse_rss, hst]
  · by_cases hst : st = 200 <;> simp [parse_rss, hst]

/-- Witness for C5: a timeout/connection exception, a 404 response and a
malformed 200 response all yield `[]`. -/
theorem parse_rss_errors_empty_witness :
    parse_rss .exn 10 = [] ∧
    parse_rss (.resp 404 (.xml (.mk "rss" none []))) 10 = [] ∧
    parse_rss (.resp 200 .malformed) 10 = [] := by
  refine ⟨parse_rss_errors_empty _ 10 (Or.inl rfl), ?_, ?_⟩
  · exact parse_rss_errors_empty _ 10 (Or.inr (Or.inl ⟨404, _, rfl, by decide⟩))
  · exact parse_rss_errors_empty _ 10 (Or.inr (Or.inr ⟨200, rfl⟩))

/-! Unfolding lemmas for the tag-removal pass and the leftover-tag
predicate, plus the chain showing the pass leaves no tag behind. -/

theorem stripTagsAux_nil : stripTagsAux [] = [] := by
  rw [stripTagsAux]

theorem stripTagsAux_cons_match (cs : List Char)
    (h : (cs.takeWhile (fun d => d ≠ '>')) ≠ [] ∧
      (cs.takeWhile (fun d => d ≠ '>')).length < cs.length) :
    stripTagsAux ('<' :: cs) =
      stripTagsAux (cs.drop ((cs.takeWhile (fun d => d ≠ '>')).length + 1)) := by
  rw [stripTagsAux]
  rw [if_pos (rfl : ('<' : Char) = '<')]
  exact if_pos h

theorem stripTagsAux_cons_nomatch (cs : List Char)
    (h : ¬((cs.takeWhile (fun d => d ≠ '>')) ≠ [] ∧
      (cs.takeWhile (fun d => d ≠ '>')).length < cs.length)) :
    stripTagsAux ('<' :: cs) = '<' :: stripTagsAux cs := by
  rw [stripTagsAux]
  rw [if_pos (rfl : ('<' : Char) = '<')]
  exact if_neg h

theorem stripTagsAux_cons_other (c : Char) (cs : List Char) (h : c ≠ '<') :
    stripTagsAux (c :: cs) = c :: stripTagsAux cs := by
  rw [stripTagsAux]
  exact if_neg h

theorem containsTag_cons_lt (cs : List Char) :
    containsTag ('<' :: cs) =
      ((decide ((cs.takeWhile (fun d => d ≠ '>')) ≠ [] ∧
        (cs.takeWhile (fun d => d ≠ '>')).length < cs.length)) || containsTag cs) := rfl

theorem containsTag_cons_other (c : Char) (cs : List Char) (h : c ≠ '<') :
    containsTag (c :: cs) = containsTag cs := by
  rw [containsTag]
  exact if_neg h

theorem stripTagsAux_of_no_tag (l : List Char) (h : '<' ∉ l) : stripTagsAux l = l := by
  induction l with
  | nil => exact stripTagsAux_nil
  | cons c cs ih =>
    have hc : c ≠ '<' := fun e => h (e ▸ List.mem_cons_self c cs)
    rw [stripTagsAux_cons_other c cs hc, ih (fun hm => h (List.mem_cons_of_mem _ hm))]

theorem mem_stripTagsAux : ∀ (n : Nat) (l : List Char) (a : Char), l.length ≤ n →
    a ∈ stripTagsAux l → a ∈ l := by
  intro n
  induction n with
  | zero =>
    intro l a hl ha
    rw [List.eq_nil_of_length_eq_zero (Nat.le_zero.mp hl)] at ha ⊢
    rwa [stripTagsAux_nil] at ha
  | succ n ih =>
    intro l a hl ha
    match l with
    | [] => rwa [stripTagsAux_nil] at ha
    | c :: cs =>
      have hcs : cs.length ≤ n := by
        simp only [List.length_cons] at hl; omega
      by_cases hc : c = '<'
      · subst hc
        by_cases hcond : (cs.takeWhile (fun d => d ≠ '>')) ≠ [] ∧
            (cs.takeWhile (fun d => d ≠ '>')).length < cs.length
        · rw [stripTagsAux_cons_match cs hcond] at ha
          have hd := ih _ a (le_trans (List.length_drop _ _ ▸ Nat.sub_le _ _) hcs) ha
          exact List.mem_cons_of_mem _ (List.mem_of_mem_drop hd)
        · rw [stripTagsAux_cons_nomatch cs hcond] at ha
          rcases List.mem_cons.mp ha with rfl | hm
          · exact List.mem_cons_self _ _
          · exact List.mem_cons_of_mem _ (ih _ a hcs hm)
      · rw [stripTagsAux_cons_other c cs hc] at ha
        rcases List.mem_cons.mp ha with rfl | hm
        · exact List.mem_cons_self _ _
        · exact List.mem_cons_of_mem _ (ih _ a hcs hm)

theorem containsTag_stripTagsAux : ∀ (n : Nat) (l : List Char), l.length ≤ n →
    containsTag (stripTagsAux l) = false := by
  intro n
  induction n with
  | zero =>
    intro l hl
    rw [List.eq_nil_of_length_eq_zero (Nat.le_zero.mp hl), stripTagsAux_nil]
    rw [containsTag]
  | succ n ih =>
    intro l hl
    match l with
    | [] => rw [stripTagsAux_nil]; rw [containsTag]
    | c :: cs =>
      have hcs : cs.length ≤ n := by
        simp only [List.length_cons] at hl; omega
      by_cases hc : c = '<'
      · subst hc
        by_cases hcond : (cs.takeWhile (fun d => d ≠ '>')) ≠ [] ∧
            (cs.takeWhile (fun d => d ≠ '>')).length < cs.length
        · rw [stripTagsAux_cons_match cs hcond]
          exact ih _ (le_trans (List.length_drop _ _ ▸ Nat.sub_le _ _) hcs)
        · rw [stripTagsAux_cons_nomatch cs hcond, containsTag_cons_lt,
            Bool.or_eq_false_iff]
          refine ⟨?_, ih _ hcs⟩
          push_neg at hcond
          by_cases hpre : (cs.takeWhile (fun d => d ≠ '>')) = []
          · match cs, hpre with
            | [], _ =>
              rw [stripTagsAux_nil]
              simp
            | c' :: cs', hpre =>
              have hc' : c' = '>' := by
                by_contra hne
                simp [List.takeWhile_cons, hne] at hpre
              subst hc'
              rw [stripTagsAux_cons_other '>' cs' (by decide)]
              simp [List.takeWhile_cons]
          · have hlen := hcond hpre
            have hpref : (cs.takeWhile (fun d => d ≠ '>')) <+: cs :=
              List.takeWhile_prefix _
            have heq : cs.takeWhile (fun d => d ≠ '>') = cs :=
              hpref.eq_of_length (le_antisymm hpref.length_le hlen)
            have hall : ∀ x ∈ cs, decide (x ≠ '>') = true :=
              List.takeWhile_eq_self_iff.mp heq
            have hgt : ∀ x ∈ stripTagsAux cs, decide (x ≠ '>') = true :=
              fun x hx => hall x (mem_stripTagsAux cs.length cs x (Nat.le_refl _) hx)
            rw [List.takeWhile_eq_self_iff.mpr hgt]
            simp
      · rw [stripTagsAux_cons_other c cs hc, containsTag_cons_other c _ hc]
        exact ih _ hcs

theorem containsTag_cons_of_containsTag (c : Char) (cs : List Char)
    (h : containsTag cs = true) : containsTag (c :: cs) = true := by
  by_cases hc : c = '<'
  · subst hc; rw [containsTag_cons_lt, h]; simp
  · rwa [containsTag_cons_other c cs hc]

theorem takeWhile_append_of_lt (p : Char → Bool) (cs t : List Char)
    (h : (cs.takeWhile p).length < cs.length) :
    (cs ++ t).takeWhile p = cs.takeWhile p := by
  induction cs with
  | nil => simp at h
  | cons c cs ih =>
    by_cases hp : p c
    · simp only [List.cons_append, List.takeWhile_cons, hp, if_pos, List.length_cons] at h ⊢
      rw [ih (by simpa using h)]
    · simp [List.takeWhile_cons, hp]

theorem containsTag_append_left (l t : List Char)
    (h : containsTag l = true) : containsTag (l ++ t) = true := by
  induction l with
  | nil => rw [containsTag] at h; exact absurd h (by simp)
  | cons c cs ih =>
    by_cases hc : c = '<'
    · subst hc
      rw [containsTag_cons_lt] at h
      rw [List.cons_append, containsTag_cons_lt]
      rcases Bool.or_eq_true_iff.mp h with hcond | hcs
      · have hcond' := of_decide_eq_true hcond
        rw [takeWhile_append_of_lt _ _ _ hcond'.2]
        refine Bool.or_eq_true_iff.mpr (Or.inl (decide_eq_true ?_))
        exact ⟨hcond'.1, lt_of_lt_of_le hcond'.2 (by simp)⟩
      · exact Bool.or_eq_true_iff.mpr (Or.inr (ih hcs))
    · rw [containsTag_cons_other c cs hc] at h
      rw [List.cons_append, containsTag_cons_other c _ hc]
      exact ih h

theorem containsTag_of_dropWhile (p : Char → Bool) (l : List Char)
    (h : containsTag (l.dropWhile p) = true) : containsTag l = true := by
  induction l with
  | nil => simpa using h
  | cons c cs ih =>
    by_cases hp : p c
    · rw [List.dropWhile_cons_of_pos hp] at h
      exact containsTag_cons_of_containsTag _ _ (ih h)
    · rwa [List.dropWhile_cons_of_neg hp] at h

theorem containsTag_pyStripList (l : List Char)
    (h : containsTag l = false) : containsTag (pyStripList l) = false := by
  by_contra hcon
  rw [Bool.not_eq_false] at hcon
  have hpre : pyStripList l <+: l.dropWhile Char.isWhitespace := by
    have he : pyStripList l =
        List.rdropWhile Char.isWhitespace (l.dropWhile Char.isWhitespace) := rfl
    rw [he]
    exact List.rdropWhile_prefix _ _
  obtain ⟨t, ht⟩ := hpre
  have h1 : containsTag (l.dropWhile Char.isWhitespace) = true := by
    rw [← ht]
    exact containsTag_append_left _ _ hcon
  rw [containsTag_of_dropWhile _ _ h1] at h
  exact Bool.true_eq_false.mp h

/-- C6 counterexample: for an item whose description holds the entity
`&amp;`, the produced summary still holds `&amp;` — it is not decoded, so
the claim that entities appear unescaped in the summary is false. -/
theorem summary_entity_counterexample :
    (mkItem (.mk "item" none [.mk "description" (some "Tom &amp; Jerry") []])).summary
        = "Tom &amp; Jerry" ∧
    (mkItem (.mk "item" none [.mk "description" (some "Tom &amp; Jerry") []])).summary
        ≠ "Tom & Jerry" := by
  have e1 : (mkItem (.mk "item" none [.mk "description" (some "Tom &amp; Jerry") []])).summary
      = pyStrip (stripTags "Tom &amp; Jerry") := rfl
  have e2 : stripTags "Tom &amp; Jerry" = "Tom &amp; Jerry" :=
    congrArg String.mk (stripTagsAux_of_no_tag _ (by decide))
  rw [e1, e2]
  constructor <;> decide

/-- C6 (amended): the summary produced for every item has all markup tags
removed — no match of `<[^>]+>` survives the removal pass and the
surrounding `strip()`; HTML entities are left as-is there (unescaping is
applied to the title only, per the counterexample). -/
theorem summary_tags_removed (e : XElem) :
    containsTag ((mkItem e).summary).data = false := by
  have he : ((mkItem e).summary).data =
      pyStripList (stripTagsAux
        (pyOrS (findtext e "description") (pyOrS (findtext e "summary") "")).data) := rfl
  rw [he]
  exact containsTag_pyStripList _ (containsTag_stripTagsAux _ _ (Nat.le_refl _))

theorem newsUniqAux_sublist (seen : List String) (m : List Article) :
    List.Sublist (newsUniqAux seen m) m := by
  induction m generalizing seen with
  | nil => simp [newsUniqAux]
  | cons x xs ih =>
    simp only [newsUniqAux]
    by_cases hx : x.title ∈ seen
    · rw [if_pos hx]; exact (ih seen).cons x
    · rw [if_neg hx]; exact (ih _).cons₂ x

theorem mem_newsUniqAux_not_seen (seen : List String) (m : List Article)
    (x : Article) (hx : x ∈ newsUniqAux seen m) : x.title ∉ seen := by
  induction m generalizing seen with
  | nil => simp [newsUniqAux] at hx
  | cons y ys ih =>
    simp only [newsUniqAux] at hx
    by_cases hy : y.title ∈ seen
    · rw [if_pos hy] at hx; exact ih seen hx
    · rw [if_neg hy] at hx
      rcases List.mem_cons.mp hx with rfl | hm
      · exact hy
      · intro hseen
        exact ih _ hm (List.mem_cons_of_mem _ hseen)

theorem newsUniqAux_nodup_titles (seen : List String) (m : List Article) :
    (newsUniqAux seen m).Pairwise (fun a b => a.title ≠ b.title) := by
  induction m generalizing seen with
  | nil => simp [newsUniqAux]
  | cons x xs ih =>
    simp only [newsUniqAux]
    by_cases hx : x.title ∈ seen
    · rw [if_pos hx]; exact ih seen
    · rw [if_neg hx]
      refine List.Pairwise.cons ?_ (ih _)
      intro b hb he
      exact mem_newsUniqAux_not_seen _ _ _ hb (by rw [← he]; exact List.mem_cons_self _ _)

theorem newsUniqAux_first_kept (seen : List String) (m : List Article)
    (t : String) (y : Article) (hts : t ∉ seen)
    (hf : m.find? (fun a => a.title == t) = some y) :
    y ∈ newsUniqAux seen m := by
  induction m generalizing seen with
  | nil => simp at hf
  | cons x xs ih =>
    cases hpx : (x.title == t) with
    | true =>
      simp only [List.find?, hpx] at hf
      have hxt : x.title = t := eq_of_beq hpx
      simp only [newsUniqAux]
      rw [if_neg (hxt ▸ hts), ← Option.some.inj hf]
      exact List.mem_cons_self _ _
    | false =>
      simp only [List.find?, hpx] at hf
      simp only [newsUniqAux]
      by_cases hx : x.title ∈ seen
      · rw [if_pos hx]; exact ih seen hts hf
      · rw [if_neg hx]
        refine List.mem_cons_of_mem _ (ih _ ?_ hf)
        intro hmem
        rcases List.mem_cons.mp hmem with he | hseen
        · rw [he, beq_self_eq_true] at hpx
          exact absurd hpx (by decide)
        · exact hts hseen

/-- C2: the Deduplicator/Sorter first sorts by the raw `published` string
(empty when missing) descending — the sorted list is a permutation of the
input, pairwise descending on `pub_key` — then drops records whose title
was already kept: the output has pairwise-distinct titles, is a
subsequence of the sorted list, and keeps the first record carrying each
title in sort order. -/
theorem dedup_sort_spec (l : List Article) :
    (sortNews l).Perm l ∧
    (sortNews l).Pairwise (fun a b => pub_key b ≤ pub_key a) ∧
    (news_uniq l).Pairwise (fun a b => a.title ≠ b.title) ∧
    List.Sublist (news_uniq l) (sortNews l) ∧
    (∀ (t : String) (y : Article),
      (sortNews l).find? (fun a => a.title == t) = some y → y ∈ news_uniq l) := by
  refine ⟨List.mergeSort_perm l _, ?_, newsUniqAux_nodup_titles [] _,
    newsUniqAux_sublist [] _, ?_⟩
  · have hs := @List.sorted_mergeSort Article
      (fun a b => decide (pub_key b ≤ pub_key a))
      (fun a b c h1 h2 => by
        simp only [decide_eq_true_eq] at h1 h2 ⊢
        exact le_trans h2 h1)
      (fun a b => by
        simp only [Bool.or_eq_true, decide_eq_true_eq]
        exact le_total (pub_key b) (pub_key a))
      l
    exact hs.imp (fun h => of_decide_eq_true h)
  · intro t y hf
    exact newsUniqAux_first_kept [] _ t y (by simp) hf

/-- Witness for C2 at a concrete list: the record found first in sort
order for its title is kept in the deduplicated output. -/
theorem dedup_sort_spec_witness :
    (sortNews [⟨"T1", "", some "2024-01-02", "", ""⟩]).find?
        (fun a => a.title == "T1") = some ⟨"T1", "", some "2024-01-02", "", ""⟩ ∧
    (⟨"T1", "", some "2024-01-02", "", ""⟩ : Article) ∈
      news_uniq [⟨"T1", "", some "2024-01-02", "", ""⟩] := by
  have hf : (sortNews [⟨"T1", "", some "2024-01-02", "", ""⟩]).find?
        (fun a => a.title == "T1") = some ⟨"T1", "", some "2024-01-02", "", ""⟩ := by
    rw [sortNews, List.mergeSort_singleton]
    simp [List.find?]
  exact ⟨hf,
    (dedup_sort_spec [⟨"T1", "", some "2024-01-02", "", ""⟩]).2.2.2.2 "T1" _ hf⟩

theorem clock_shift (d hh mi ss : Nat) :
    afterClose (clockHour (d * 86400 + hh * 3600 + mi * 60 + ss + IST_OFFSET_SECS))
      (clockMin (d * 86400 + hh * 3600 + mi * 60 + ss + IST_OFFSET_SECS)) =
    afterClose (clockHour (hh * 3600 + mi * 60 + ss + IST_OFFSET_SECS))
      (clockMin (hh * 3600 + mi * 60 + ss + IST_OFFSET_SECS)) := by
  have h1 : clockHour (d * 86400 + hh * 3600 + mi * 60 + ss + IST_OFFSET_SECS) =
      clockHour (hh * 3600 + mi * 60 + ss + IST_OFFSET_SECS) := by
    unfold clockHour IST_OFFSET_SECS; omega
  have h2 : clockMin (d * 86400 + hh * 3600 + mi * 60 + ss + IST_OFFSET_SECS) =
      clockMin (hh * 3600 + mi * 60 + ss + IST_OFFSET_SECS) := by
    unfold clockMin IST_OFFSET_SECS; omega
  rw [h1, h2]

/-- C3: the time filter is a total function (the embedding returns a
`Bool` on every string) and every parse failure resolves to `false`:
when none of the four formats parses the string, a missing `HH:MM:SS` run
— or a first run that is not a valid clock time — yields `false`, for
every value of today's date. -/
theorem is_after_hours_fail_false (todayOrd : Nat) (s : String)
    (hp : strptimeAll s = none) :
    (findHMS s.data = none → is_after_hours todayOrd s = false) ∧
    (∀ hh mi ss, findHMS s.data = some (hh, mi, ss) →
      ¬(hh ≤ 23 ∧ mi ≤ 59 ∧ ss ≤ 59) → is_after_hours todayOrd s = false) := by
  constructor
  · intro hf
    simp [is_after_hours, hp, hf]
  · intro hh mi ss hf hv
    simp [is_after_hours, hp, hf, hv]

/-- Witness for C3: unparseable garbage yields `false`. -/
theorem is_after_hours_fail_false_witness :
    strptimeAll "garbage" = none ∧ findHMS "garbage".data = none ∧
    is_after_hours 738887 "garbage" = false :=
  ⟨by decide, by decide,
    (is_after_hours_fail_false 738887 "garbage" (by decide)).1 (by decide)⟩

/-- C7: an RFC-822-style timestamp with a `GMT` zone parses naive, is
shifted to the fixed +5:30 offset and compared with the 15:30 cutoff:
16:00 GMT (21:30 IST) is after-hours, 08:00 GMT (13:30 IST) is not —
independent of today's date, which this path never consults. -/
theorem is_after_hours_examples (todayOrd : Nat) :
    is_after_hours todayOrd "Mon, 02 Jan 2024 16:00:00 GMT" = true ∧
    is_after_hours todayOrd "Mon, 02 Jan 2024 08:00:00 GMT" = false := by
  constructor <;> rfl

/-- C9: the classification depends only on the input string, never on the
date read from the clock — the fallback's choice of "today" cannot change
the hour/minute comparison against the cutoff. -/
theorem is_after_hours_clock_independent (t1 t2 : Nat) (s : String) :
    is_after_hours t1 s = is_after_hours t2 s := by
  unfold is_after_hours
  cases strptimeAll s with
  | some dt => rfl
  | none =>
    cases hf : findHMS s.data with
    | none => rfl
    | some v =>
      obtain ⟨hh, mi, ss⟩ := v
      by_cases hv : hh ≤ 23 ∧ mi ≤ 59 ∧ ss ≤ 59
      · simp only [if_pos hv]
        rw [clock_shift, clock_shift]
      · simp only [if_neg hv]

/-- C10: a bare `HH:MM:SS` run recovered by the fallback is treated as a
naive UTC time: it is classified after-hours exactly when the clock time
of `t + 5:30`, wrapping past midnight, is at or past 15:30; in
particular an input containing only `10:00:00` is after-hours. -/
theorem bare_time_characterization (todayOrd : Nat) (s : String)
    (hh mi ss : Nat)
    (hp : strptimeAll s = none)
    (hf : findHMS s.data = some (hh, mi, ss))
    (hv : hh ≤ 23 ∧ mi ≤ 59 ∧ ss ≤ 59) :
    (is_after_hours todayOrd s = decide (930 ≤ (hh * 60 + mi + 330) % 1440)) ∧
    (∀ today2 : Nat, is_after_hours today2 "10:00:00" = true) := by
  constructor
  · simp only [is_after_hours, hp, hf]
    rw [if_pos hv]
    rw [clock_shift]
    unfold afterClose clockHour clockMin IST_OFFSET_SECS
    rw [decide_eq_decide]
    obtain ⟨h1, h2, h3⟩ := hv
    omega
  · intro today2
    have hp10 : strptimeAll "10:00:00" = none := by decide
    have hf10 : findHMS "10:00:00".data = some (10, 0, 0) := by decide
    simp only [is_after_hours, hp10, hf10]
    rw [if_pos (by omega : 10 ≤ 23 ∧ 0 ≤ 59 ∧ 0 ≤ 59)]
    rw [clock_shift]
    decide

/-- Witness for C10 at the concrete bare-time input `"10:00:00"`. -/
theorem bare_time_characterization_witness :
    strptimeAll "10:00:00" = none ∧
    findHMS "10:00:00".data = some (10, 0, 0) ∧
    is_after_hours 738887 "10:00:00" = decide (930 ≤ (10 * 60 + 0 + 330) % 1440) :=
  ⟨by decide, by decide,
    (bare_time_characterization 738887 "10:00:00" 10 0 0 (by decide) (by decide)
      (by decide)).1⟩

/-- C8: the two concrete tagging examples from the spec. -/
theorem tag_article_examples :
    tag_article "RBI hikes repo rate amid inflation concerns" = ["Macro"] ∧
    tag_article "Company X announces share buyback and dividend" = ["Corporate Action"] := by
  constructor <;> decide

end Bloomberg
